import Mathlib

/-
Verification of the initialization orchestrator of the `post` repository
(src/initialization/initialization.go, src/shared/errors.go).

The Go code is shallowly embedded: pure functions become Lean functions,
the stateful per-file write loop becomes a function from an explicit
environment (oracle results, cancellation schedule, writer health) and a
writer state to a result together with an event trace.  Machine integers
are Nat with explicit reductions modulo 2^64 where uint64 overflow can
matter, and Go `big.Int` arithmetic is Int.  External collaborators that
are not part of the two source files (the persistence label writer, the
disk-state reader, the compute oracle, the gpu stop call, directory
enumeration) are modelled from the spec as environment inputs; each such
definition says so in its doc comment.
-/

set_option maxRecDepth 8000

namespace Post

/-- Configuration shared across a data directory (config.Config fields used
by the orchestrator). -/
structure Config where
  bitsPerLabel : Nat
  labelsPerUnit : Nat
deriving DecidableEq

/-- Init options (config.InitOpts fields used by the orchestrator). -/
structure InitOpts where
  dataDir : String
  numUnits : Nat
  numFiles : Nat
deriving DecidableEq

/-- The persisted metadata record (initialization.Metadata). -/
structure Metadata where
  commitment : List Nat
  bitsPerLabel : Nat
  labelsPerUnit : Nat
  numUnits : Nat
  numFiles : Nat
deriving DecidableEq

/-- shared.ConfigMismatchError: the offending parameter name, the expected
and found values rendered as Go fmt does, and the data directory. -/
structure ConfigMismatchError where
  param : String
  expected : String
  found : String
  dataDir : String
deriving DecidableEq

/-- The in-memory orchestrator state that is fixed for the lifetime of an
Initializer value: configuration, options and the commitment. -/
structure Orchestrator where
  cfg : Config
  opts : InitOpts
  commitment : List Nat
deriving DecidableEq

/-- One lowercase hexadecimal digit, as Go fmt verb x prints it. -/
def hexDigit (n : Nat) : Char :=
  if n < 10 then Char.ofNat (48 + n) else Char.ofNat (87 + n)

/-- Two lowercase hexadecimal digits for one byte. -/
def hexByte (b : Nat) : String :=
  String.mk [hexDigit ((b % 256) / 16), hexDigit (b % 16)]

/-- Go fmt verb x applied to a byte slice: the concatenation of two
lowercase hexadecimal digits per byte. -/
def hexBytes (bs : List Nat) : String :=
  String.join (bs.map hexByte)

/-- Initializer.verifyMetadata: compares the loaded metadata record
field by field against the current commitment, configuration and options,
in source order, returning the first mismatch as a ConfigMismatchError.
A NumUnits difference is reported only while NumFiles > 1. -/
def verifyMetadata (ini : Orchestrator) (m : Metadata) : Option ConfigMismatchError :=
  if ini.commitment ≠ m.commitment then
    some ⟨"Commitment", hexBytes ini.commitment, hexBytes m.commitment, ini.opts.dataDir⟩
  else if ini.cfg.bitsPerLabel ≠ m.bitsPerLabel then
    some ⟨"BitsPerLabel", toString ini.cfg.bitsPerLabel, toString m.bitsPerLabel, ini.opts.dataDir⟩
  else if ini.cfg.labelsPerUnit ≠ m.labelsPerUnit then
    some ⟨"LabelsPerUnit", toString ini.cfg.labelsPerUnit, toString m.labelsPerUnit, ini.opts.dataDir⟩
  else if ini.opts.numFiles ≠ m.numFiles then
    some ⟨"NumFiles", toString ini.opts.numFiles, toString m.numFiles, ini.opts.dataDir⟩
  else if ini.opts.numUnits ≠ m.numUnits ∧ 1 < ini.opts.numFiles then
    some ⟨"NumUnits", toString ini.opts.numUnits, toString m.numUnits, ini.opts.dataDir⟩
  else
    none

/-- The Status enumeration of the orchestrator. -/
inductive Status where
  | notStarted
  | started
  | initializing
  | completed
  | statusError
deriving DecidableEq

/-- The target label count of a run: uint64(NumUnits) * uint64(LabelsPerUnit),
a uint64 product, hence reduced modulo 2^64. -/
def targetLabels (ini : Orchestrator) : Nat :=
  (ini.opts.numUnits * ini.cfg.labelsPerUnit) % (2 ^ 64)

/-- Initializer.Status.  The exclusivity token (sync.RWMutex TryLock) is
modelled by the Boolean lockHeld; the disk-state read
(DiskState.NumLabelsWritten, code outside src) is an environment input
that either fails or yields the aggregate on-disk label count. -/
def statusRun (ini : Orchestrator) (lockHeld : Bool) (diskNumLabels : Except Unit Nat) : Status :=
  if lockHeld then Status.initializing
  else
    match diskNumLabels with
    | Except.error _ => Status.statusError
    | Except.ok n =>
      if n = targetLabels ini then Status.completed
      else if 0 < n then Status.started
      else Status.notStarted

/-- Conversion of a uint64 value to a Go int64, as the cast
int64(numLabels) performs it: two sc complement wraparound. -/
def goInt64 (n : Nat) : Int :=
  if n % 2 ^ 64 < 2 ^ 63 then ((n % 2 ^ 64 : Nat) : Int)
  else ((n % 2 ^ 64 : Nat) : Int) - 2 ^ 64

/-- Fixed-width big-endian byte encoding: k bytes, most significant first. -/
def beBytes : Nat → Nat → List Nat
  | 0, _ => []
  | k + 1, x => beBytes k (x / 256) ++ [x % 256]

/-- Big-endian byte decoding. -/
def beDecode (l : List Nat) : Nat :=
  l.foldl (fun a b => a * 256 + b) 0

/-- Initializer.getDifficulty.  The Go code builds the 33-byte value
2^256, divides it by big.NewInt(int64(numLabels)) using big.Int Div
(Euclidean division, matching Int.ediv), and calls FillBytes on a 32-byte
slice.  big.Int Div panics on a zero divisor and FillBytes panics when the
absolute value needs more than 32 bytes; both panics are modelled as
none. -/
def getDifficulty (numLabels : Nat) : Option (List Nat) :=
  let d := goInt64 numLabels
  if d = 0 then none
  else
    let q : Int := Int.ediv ((2 : Int) ^ 256) d
    if q.natAbs < 2 ^ 256 then some (beBytes 32 q.natAbs) else none

theorem beBytes_length (k x : Nat) : (beBytes k x).length = k := by
  induction k generalizing x with
  | zero => rfl
  | succ k ih => simp [beBytes, ih]

theorem beBytes_lt (k x : Nat) : ∀ b ∈ beBytes k x, b < 256 := by
  induction k generalizing x with
  | zero => intro b hb; simp [beBytes] at hb
  | succ k ih =>
    intro b hb
    simp only [beBytes, List.mem_append, List.mem_singleton] at hb
    rcases hb with hb | hb
    · exact ih (x / 256) b hb
    · subst hb; exact Nat.mod_lt _ (by norm_num)

theorem beDecode_beBytes (k x : Nat) : beDecode (beBytes k x) = x % 256 ^ k := by
  induction k generalizing x with
  | zero => simp [beBytes, beDecode, Nat.mod_one]
  | succ k ih =>
    have hfold : ∀ (l : List Nat) (a b : Nat),
        (l ++ [b]).foldl (fun a b => a * 256 + b) a =
        (l.foldl (fun a b => a * 256 + b) a) * 256 + b := by
      intro l a b; simp [List.foldl_append]
    have hx : x % 256 ^ (k + 1) = (x / 256 % 256 ^ k) * 256 + x % 256 := by
      rw [pow_succ', Nat.mod_mul]; ring
    unfold beDecode at *
    rw [beBytes, hfold, ih, hx]

theorem natAbs_ediv_ofNat (a b : Nat) : (Int.ediv (a : Int) (b : Int)).natAbs = a / b := rfl

/-- Claim C4, counterexample.  At N = 1 the code panics instead of
returning an encoding (floor(2^256 / 1) = 2^256 does not fit the 32-byte
FillBytes buffer), and at N = 2^63 + 1 the int64 cast makes the divisor
negative, so the returned bytes are not the big-endian encoding of
floor(2^256 / N). -/
theorem C4_getDifficulty_cx :
    getDifficulty 1 = none ∧
    getDifficulty (2 ^ 63 + 1) ≠ some (beBytes 32 (2 ^ 256 / (2 ^ 63 + 1))) := by
  constructor
  · rfl
  · decide

/-- Claim C4 (amended): for every total target label count N with
2 ≤ N < 2^63, getDifficulty returns exactly floor(2^256 / N) encoded as a
32-byte fixed-width big-endian value, and the result depends only on N. -/
theorem C4_getDifficulty_floor_div (n : Nat) (h2 : 2 ≤ n) (h63 : n < 2 ^ 63) :
    ∃ bs, getDifficulty n = some bs ∧ bs.length = 32 ∧
      beDecode bs = 2 ^ 256 / n ∧ ∀ b ∈ bs, b < 256 := by
  have h64 : n < 2 ^ 64 := by omega
  have hd : goInt64 n = (n : Int) := by
    unfold goInt64
    rw [Nat.mod_eq_of_lt h64, if_pos h63]
  have hne : goInt64 n ≠ 0 := by
    rw [hd]
    simp only [ne_eq, Int.natCast_eq_zero]
    omega
  have hq : (Int.ediv ((2 : Int) ^ 256) (goInt64 n)).natAbs = 2 ^ 256 / n := by
    rw [hd]
    have h2n : ((2 : Int) ^ 256) = ((2 ^ 256 : Nat) : Int) := by norm_cast
    rw [h2n, natAbs_ediv_ofNat]
  have hlt : 2 ^ 256 / n < 2 ^ 256 := Nat.div_lt_self (by positivity) (by omega)
  refine ⟨beBytes 32 (2 ^ 256 / n), ?_, beBytes_length 32 _, ?_, beBytes_lt 32 _⟩
  · unfold getDifficulty
    simp only [if_neg hne, hq, if_pos hlt]
  · rw [beDecode_beBytes]
    have h256 : (256 : Nat) ^ 32 = 2 ^ 256 := by norm_num
    rw [h256]
    exact Nat.mod_eq_of_lt hlt

/-- Claim C4, witness: the amended theorem applied at N = 7. -/
theorem C4_getDifficulty_witness :
    2 ≤ 7 ∧ 7 < 2 ^ 63 ∧
    ∃ bs, getDifficulty 7 = some bs ∧ bs.length = 32 ∧
      beDecode bs = 2 ^ 256 / 7 ∧ ∀ b ∈ bs, b < 256 :=
  ⟨by norm_num, by norm_num, C4_getDifficulty_floor_div 7 (by norm_num) (by norm_num)⟩

/-- Errors surfaced by the orchestrator.  Sentinel errors of the source
plus wrappers for propagated collaborator errors. -/
inductive InitError where
  | alreadyInitializing
  | cannotResetWhileInitializing
  | diskStateError
  | metadataLoadError (msg : String)
  | configMismatch (e : ConfigMismatchError)
  | saveError
  | truncateError
  | gpuStopError
  | oracleError (msg : String)
  | writeError
  | flushError
  | cancelled
  | readDirError
  | removeError
  | stuck
deriving DecidableEq

/-- Observable effects of a run, in order of occurrence: exclusivity token
acquisition and release, the per-batch cancellation check, the gpu stop
call, writer flush, writer truncation, one oracle dispatch with its
position range, one writer append with the appended label count, and one
update of the shared progress counter. -/
inductive Event where
  | acquire
  | release
  | ctxCheck
  | gpuStop
  | flushEv
  | truncateEv (n : Nat)
  | oracleCall (startP endP : Nat)
  | writeEv (n : Nat)
  | store (v : Nat)
deriving DecidableEq

/-- Result of one oracle dispatch (oracle.WorkOracleResult): the packed
labels of the requested range and the opportunistic pow nonce.  The oracle
is external to the repository; it is represented by its observable
output. -/
structure OracleResult where
  output : List Nat
  nonce : Nat
deriving DecidableEq

/-- Modelled from the spec: the persistence label-file writer state
(persistence.NewLabelsWriter is outside src).  Per spec section 4.3 the
writer buffers appends, Flush moves buffered data to stable storage,
Truncate shrinks the stored file, and NumLabelsWritten reports the
persisted label count by file length. -/
structure WriterState where
  flushed : List Nat
  buffer : List Nat
deriving DecidableEq

/-- Modelled from the spec: Write appends a batch to the internal buffer. -/
def WriterState.write (w : WriterState) (out : List Nat) : WriterState :=
  ⟨w.flushed, w.buffer ++ out⟩

/-- Modelled from the spec: Flush forces buffered appends to stable
storage. -/
def WriterState.flush (w : WriterState) : WriterState :=
  ⟨w.flushed ++ w.buffer, []⟩

/-- Modelled from the spec: Truncate shrinks the stored file to exactly n
labels (it is only invoked on a freshly opened writer, whose buffer is
empty). -/
def WriterState.truncate (w : WriterState) (n : Nat) : WriterState :=
  ⟨w.flushed.take n, w.buffer⟩

/-- Modelled from the spec: NumLabelsWritten derives the persisted label
count from the stored file length. -/
def WriterState.numLabelsWritten (w : WriterState) : Nat :=
  w.flushed.length

/-- Environment of one initFile call: the external collaborators it
consults.  cancelAt says whether the cancellation token is signalled at
the k-th batch-boundary check; oracle maps a closed position range to the
oracle outcome (commitment, bits per label and difficulty are fixed for
the run and omitted from the model); gpuStopOk, truncateOk, flushOk and
writeOk model the success of gpu.Stop, writer.Truncate, writer.Flush and
the k-th writer.Write. -/
structure FileEnv where
  cancelAt : Nat → Bool
  oracle : Nat → Nat → Except String OracleResult
  gpuStopOk : Bool
  truncateOk : Bool
  flushOk : Bool
  writeOk : Nat → Bool

deriving instance DecidableEq for Except

/-- Outcome of a per-file run: the returned value, the final writer state
and the emitted event trace. -/
structure RunOut where
  result : Except InitError Unit
  writer : WriterState
  trace : List Event
deriving DecidableEq

/-- The batch loop of Initializer.initFile, lines 299-348 of
initialization.go.  Each iteration checks the cancellation token, clips
the batch size to the remaining labels, dispatches the batch range to the
oracle, appends the returned labels and stores the new absolute position
fileOffset + currentPosition + batchSize into the progress counter; after
the loop the writer is flushed.  The cancellation path stops the gpu and
flushes before returning the context error.  fuel bounds the number of
iterations: with a positive batch size, fileNumLabels + 1 is always
enough; exhausted fuel (result stuck) corresponds to the infinite loop the
Go code would enter with batchSize = 0. -/
def runBatches (env : FileEnv) (fileOffset fileNumLabels : Nat) :
    Nat → Nat → Nat → Nat → WriterState → RunOut
  | 0, _, _, _, w => ⟨Except.error InitError.stuck, w, []⟩
  | fuel + 1, batchSize, currentPosition, k, w =>
    if currentPosition < fileNumLabels then
      if env.cancelAt k then
        if env.gpuStopOk then
          if env.flushOk then
            ⟨Except.error InitError.cancelled, w.flush, [Event.ctxCheck, Event.gpuStop, Event.flushEv]⟩
          else
            ⟨Except.error InitError.flushError, w, [Event.ctxCheck, Event.gpuStop, Event.flushEv]⟩
        else
          ⟨Except.error InitError.gpuStopError, w, [Event.ctxCheck, Event.gpuStop]⟩
      else
        let remaining := fileNumLabels - currentPosition
        let bs := if remaining < batchSize then remaining else batchSize
        if bs = 0 then
          ⟨Except.error InitError.stuck, w, [Event.ctxCheck]⟩
        else
          let startP := fileOffset + currentPosition
          let endP := startP + bs - 1
          match env.oracle startP endP with
          | Except.error e =>
            ⟨Except.error (InitError.oracleError e), w, [Event.ctxCheck, Event.oracleCall startP endP]⟩
          | Except.ok res =>
            if env.writeOk k then
              let r := runBatches env fileOffset fileNumLabels fuel bs (currentPosition + bs) (k + 1)
                (w.write res.output)
              ⟨r.result, r.writer,
                Event.ctxCheck :: Event.oracleCall startP endP :: Event.writeEv res.output.length ::
                  Event.store (fileOffset + currentPosition + bs) :: r.trace⟩
            else
              ⟨Except.error InitError.writeError, w, [Event.ctxCheck, Event.oracleCall startP endP]⟩
    else
      if env.flushOk then
        ⟨Except.ok (), w.flush, [Event.flushEv]⟩
      else
        ⟨Except.error InitError.flushError, w, [Event.flushEv]⟩

/-- Initializer.initFile.  fileContents is the label content the file
holds when the writer is opened (the writer opens with an empty buffer).
If the persisted count equals the per-file target the file is skipped; if
it exceeds the target the file is truncated; otherwise the batch loop
resumes from the persisted count.  The batch loop gets fuel
fileNumLabels + 1, which never runs out for a positive batch size.
The difficulty computed at the top of the Go function is a pure value
consumed only by the oracle and is not part of the trace; writer open and
the initial and final NumLabelsWritten reads are modelled as infallible. -/
def initFile (env : FileEnv) (fileIndex fileNumLabels batchSize : Nat)
    (fileContents : List Nat) : RunOut :=
  let fileOffset := fileIndex * fileNumLabels
  let fileTargetPosition := fileOffset + fileNumLabels
  let w : WriterState := ⟨fileContents, []⟩
  let n := w.numLabelsWritten
  if 0 < n then
    if n = fileNumLabels then
      ⟨Except.ok (), w, [Event.store fileTargetPosition]⟩
    else if fileNumLabels < n then
      if env.truncateOk then
        ⟨Except.ok (), w.truncate fileNumLabels,
          [Event.truncateEv fileNumLabels, Event.store fileTargetPosition]⟩
      else
        ⟨Except.error InitError.truncateError, w, [Event.truncateEv fileNumLabels]⟩
    else
      runBatches env fileOffset fileNumLabels (fileNumLabels + 1) batchSize n 0 w
  else
    runBatches env fileOffset fileNumLabels (fileNumLabels + 1) batchSize n 0 w

/-- The world an Initialize call runs in: the exclusivity token state, the
outcomes of the disk-state read, metadata load and metadata save (all
outside src), the batch size constant, and per file its initial content
and collaborator environment. -/
structure World where
  lockHeld : Bool
  diskNumLabels : Except Unit Nat
  metaLoad : Except String Metadata
  saveOk : Bool
  batchSize : Nat
  fileContents : Nat → List Nat
  fileEnv : Nat → FileEnv

/-- The per-file loop of Initializer.Initialize, lines 182-186: files are
processed sequentially in index order, stopping at the first error. -/
def initFiles (batchSize : Nat) (fileContents : Nat → List Nat) (fileEnv : Nat → FileEnv)
    (fileNumLabels : Nat) : Nat → Nat → Except InitError Unit × List Event
  | _, 0 => (Except.ok (), [])
  | i, cnt + 1 =>
    let r := initFile (fileEnv i) i fileNumLabels batchSize (fileContents i)
    match r.result with
    | Except.error e => (Except.error e, r.trace)
    | Except.ok _ =>
      let rest := initFiles batchSize fileContents fileEnv fileNumLabels (i + 1) cnt
      (rest.1, r.trace ++ rest.2)

/-- The body of Initializer.Initialize, lines 160-188: everything that
runs while the exclusivity token is held.  Reads the aggregate disk state,
loads and verifies the metadata when any label is on disk, re-saves the
metadata, computes the uint64 total and per-file label targets and
processes the files in order. -/
def initBody (ini : Orchestrator) (w : World) : Except InitError Unit × List Event :=
  match w.diskNumLabels with
  | Except.error _ => (Except.error InitError.diskStateError, [])
  | Except.ok n =>
    let metaRes : Option InitError :=
      if 0 < n then
        match w.metaLoad with
        | Except.error e => some (InitError.metadataLoadError e)
        | Except.ok m =>
          match verifyMetadata ini m with
          | some e => some (InitError.configMismatch e)
          | none => none
      else none
    match metaRes with
    | some e => (Except.error e, [])
    | none =>
      if w.saveOk then
        let numLabels := targetLabels ini
        let fileNumLabels := numLabels / ini.opts.numFiles
        initFiles w.batchSize w.fileContents w.fileEnv fileNumLabels 0 ini.opts.numFiles
      else (Except.error InitError.saveError, [])

/-- Initializer.Initialize.  Try-acquires the exclusivity token (immediate
ErrAlreadyInitializing on contention) and runs the body; the trace
brackets the body with the token acquisition and the deferred release. -/
def initRun (ini : Orchestrator) (w : World) : Except InitError Unit × List Event :=
  if w.lockHeld then (Except.error InitError.alreadyInitializing, [])
  else
    ((initBody ini w).1, Event.acquire :: (initBody ini w).2 ++ [Event.release])

/-- The world a Reset call runs in: the token state, the directory listing
(os.ReadDir, outside src), and per file name whether its FileInfo read
succeeds, whether it is a recognized init file or the metadata file
(shared.IsInitFile, outside src), and whether its removal succeeds. -/
structure ResetEnv where
  lockHeld : Bool
  readDir : Except Unit (List String)
  infoOk : String → Bool
  isTarget : String → Bool
  removeOk : String → Bool

/-- The deletion loop of Initializer.Reset: entries whose FileInfo read
fails are skipped, recognized files are removed, the first removal failure
aborts. -/
def resetLoop (env : ResetEnv) : List String → Except InitError Unit
  | [] => Except.ok ()
  | f :: rest =>
    if env.infoOk f then
      if env.isTarget f then
        if env.removeOk f then resetLoop env rest
        else Except.error InitError.removeError
      else resetLoop env rest
    else resetLoop env rest

/-- Initializer.Reset.  Try-acquires the exclusivity token (immediate
ErrCannotResetWhileInitializing on contention), then enumerates the data
directory and deletes the recognized files. -/
def resetRun (env : ResetEnv) : Except InitError Unit × List Event :=
  if env.lockHeld then (Except.error InitError.cannotResetWhileInitializing, [])
  else
    let body : Except InitError Unit :=
      match env.readDir with
      | Except.error _ => Except.error InitError.readDirError
      | Except.ok files => resetLoop env files
    (body, [Event.acquire, Event.release])

/-- Recognizer for cancellation-check events. -/
def isCheck : Event → Bool
  | Event.ctxCheck => true
  | _ => false

/-- Recognizer for oracle-dispatch events. -/
def isOracle : Event → Bool
  | Event.oracleCall _ _ => true
  | _ => false

/-- Recognizer for gpu-stop events. -/
def isGpu : Event → Bool
  | Event.gpuStop => true
  | _ => false

/-- Recognizer for flush events. -/
def isFlush : Event → Bool
  | Event.flushEv => true
  | _ => false

/-- The value of a progress-counter update event. -/
def storeVal : Event → Option Nat
  | Event.store v => some v
  | _ => none

/-- The start position of an oracle-dispatch event. -/
def oracleStart : Event → Option Nat
  | Event.oracleCall s _ => some s
  | _ => none

/-- The label count of a writer-append event. -/
def writeLen : Event → Option Nat
  | Event.writeEv n => some n
  | _ => none

/-- The sequence of progress-counter values stored during a trace, in
order: the values a concurrent SessionNumLabelsWritten reader can
observe. -/
def storesOf (tr : List Event) : List Nat :=
  tr.filterMap storeVal

/-- The start positions of the oracle dispatches of a trace, in order. -/
def oracleStarts (tr : List Event) : List Nat :=
  tr.filterMap oracleStart

/-- The total number of labels appended to the writer during a trace: the
labels actually written in this session. -/
def writtenOf (tr : List Event) : Nat :=
  (tr.filterMap writeLen).sum

/-- A healthy concrete file environment: never cancelled, oracle answers
every range with four labels, all writer operations succeed. -/
def envOk : FileEnv :=
  ⟨fun _ => false, fun _ _ => Except.ok ⟨[7, 7, 7, 7], 0⟩, true, true, true, fun _ => true⟩

/-- A concrete orchestrator: 8 bits per label, 4 labels per unit, 2 units,
2 files, a 32-byte commitment. -/
def iniW : Orchestrator := ⟨⟨8, 4⟩, ⟨"data", 2, 2⟩, List.replicate 32 1⟩

/-- A concrete world with a free token and an empty data directory. -/
def worldW : World :=
  ⟨false, Except.ok 0, Except.error ("absent"), true, 4, fun _ => [], fun _ => envOk⟩

/-- A concrete reset environment with a free token. -/
def resetW : ResetEnv :=
  ⟨false, Except.ok ["postdata_metadata.json", "other"], fun _ => true,
    fun f => f = "postdata_metadata.json", fun _ => true⟩

/-- Claim C3: Initialize and Reset acquire the exclusivity token
non-blockingly.  If the token is held, Initialize returns
ErrAlreadyInitializing and Reset returns ErrCannotResetWhileInitializing
at once, performing no work (empty trace); if the token is free, the call
acquires it first and releases it last on every exit path. -/
theorem C3_token_nonblocking :
    (∀ (ini : Orchestrator) (w : World), w.lockHeld = true →
        initRun ini w = (Except.error InitError.alreadyInitializing, [])) ∧
    (∀ env : ResetEnv, env.lockHeld = true →
        resetRun env = (Except.error InitError.cannotResetWhileInitializing, [])) ∧
    (∀ (ini : Orchestrator) (w : World), w.lockHeld = false →
        (initRun ini w).2.head? = some Event.acquire ∧
        (initRun ini w).2.getLast? = some Event.release) ∧
    (∀ env : ResetEnv, env.lockHeld = false →
        (resetRun env).2.head? = some Event.acquire ∧
        (resetRun env).2.getLast? = some Event.release) := by
  refine ⟨?_, ?_, ?_, ?_⟩
  · intro ini w h
    simp [initRun, h]
  · intro env h
    simp [resetRun, h]
  · intro ini w h
    constructor
    · simp [initRun, h]
    · simp only [initRun, h, Bool.false_eq_true, if_false]
      rw [List.getLast?_concat]
  · intro env h
    constructor
    · simp [resetRun, h]
    · simp [resetRun, h, List.getLast?]

/-- Claim C3, witness: both token states exercised at concrete inputs. -/
theorem C3_token_nonblocking_witness :
    initRun iniW { worldW with lockHeld := true } =
      (Except.error InitError.alreadyInitializing, []) ∧
    resetRun { resetW with lockHeld := true } =
      (Except.error InitError.cannotResetWhileInitializing, []) ∧
    (initRun iniW worldW).2.head? = some Event.acquire ∧
    (initRun iniW worldW).2.getLast? = some Event.release ∧
    (resetRun resetW).2.getLast? = some Event.release :=
  ⟨C3_token_nonblocking.1 iniW _ rfl,
   C3_token_nonblocking.2.1 _ rfl,
   (C3_token_nonblocking.2.2.1 iniW worldW rfl).1,
   (C3_token_nonblocking.2.2.1 iniW worldW rfl).2,
   (C3_token_nonblocking.2.2.2 resetW rfl).2⟩

/-- Claim C7: Status is a pure derivation from the token state and the
disk read: token held reports Initializing; a failed disk read reports
Error; a count equal to the uint64 target numUnits * labelsPerUnit
reports Completed; a nonzero count reports Started; zero reports
NotStarted. -/
theorem C7_status_derivation (ini : Orchestrator) (lockHeld : Bool) (dn : Except Unit Nat) :
    (lockHeld = true → statusRun ini lockHeld dn = Status.initializing) ∧
    (lockHeld = false → ∀ e, dn = Except.error e →
        statusRun ini lockHeld dn = Status.statusError) ∧
    (lockHeld = false → ∀ n, dn = Except.ok n → n = targetLabels ini →
        statusRun ini lockHeld dn = Status.completed) ∧
    (lockHeld = false → ∀ n, dn = Except.ok n → ¬ n = targetLabels ini → 0 < n →
        statusRun ini lockHeld dn = Status.started) ∧
    (lockHeld = false → dn = Except.ok 0 → ¬ 0 = targetLabels ini →
        statusRun ini lockHeld dn = Status.notStarted) := by
  refine ⟨?_, ?_, ?_, ?_, ?_⟩
  · intro h; subst h; simp [statusRun]
  · intro h e he; subst h; subst he; simp [statusRun]
  · intro h n hn ht; subst h; subst hn; simp [statusRun, ht]
  · intro h n hn ht h0; subst h; subst hn; simp [statusRun, ht, h0]
  · intro h hn ht; subst h; subst hn; simp [statusRun, ht]

/-- Claim C7, witness: all five status outcomes at concrete inputs
(target of iniW is 8). -/
theorem C7_status_derivation_witness :
    statusRun iniW true (Except.ok 0) = Status.initializing ∧
    statusRun iniW false (Except.error ()) = Status.statusError ∧
    statusRun iniW false (Except.ok 8) = Status.completed ∧
    statusRun iniW false (Except.ok 3) = Status.started ∧
    statusRun iniW false (Except.ok 0) = Status.notStarted :=
  ⟨(C7_status_derivation iniW true (Except.ok 0)).1 rfl,
   (C7_status_derivation iniW false (Except.error ())).2.1 rfl () rfl,
   (C7_status_derivation iniW false (Except.ok 8)).2.2.1 rfl 8 rfl (by decide),
   (C7_status_derivation iniW false (Except.ok 3)).2.2.2.1 rfl 3 rfl (by decide) (by decide),
   (C7_status_derivation iniW false (Except.ok 0)).2.2.2.2 rfl rfl (by decide)⟩

/-- Claim C9: when the on-disk label count exceeds the target, Status
reports Started, never Completed: Completed needs exact equality. -/
theorem C9_overshoot_started (ini : Orchestrator) (n : Nat) (h : targetLabels ini < n) :
    statusRun ini false (Except.ok n) = Status.started ∧
    statusRun ini false (Except.ok n) ≠ Status.completed := by
  have h1 : ¬ n = targetLabels ini := by omega
  have h2 : 0 < n := by omega
  constructor
  · simp [statusRun, h1, h2]
  · simp [statusRun, h1, h2]

/-- Claim C9, witness: target of iniW is 8; 9 labels on disk report
Started. -/
theorem C9_overshoot_started_witness :
    targetLabels iniW < 9 ∧
    statusRun iniW false (Except.ok 9) = Status.started ∧
    statusRun iniW false (Except.ok 9) ≠ Status.completed :=
  ⟨by decide, (C9_overshoot_started iniW 9 (by decide)).1,
   (C9_overshoot_started iniW 9 (by decide)).2⟩

/-- Claim C10: the exclusivity token records no owner identity (it is a
bare mutex): whoever holds it, a concurrent Status reports Initializing
and a concurrent Initialize fails with ErrAlreadyInitializing, also while
the holder is a Reset call. -/
theorem C10_token_unattributed (ini : Orchestrator) (w : World) (lockHeld : Bool)
    (dn : Except Unit Nat) :
    (lockHeld = true → statusRun ini lockHeld dn = Status.initializing) ∧
    (w.lockHeld = true → (initRun ini w).1 = Except.error InitError.alreadyInitializing) := by
  constructor
  · intro h; subst h; simp [statusRun]
  · intro h; simp [initRun, h]

/-- Claim C10, witness: concrete held-token observations. -/
theorem C10_token_unattributed_witness :
    statusRun iniW true (Except.error ()) = Status.initializing ∧
    (initRun iniW { worldW with lockHeld := true }).1 =
      Except.error InitError.alreadyInitializing :=
  ⟨(C10_token_unattributed iniW worldW true (Except.error ())).1 rfl,
   (C10_token_unattributed iniW { worldW with lockHeld := true } true (Except.error ())).2 rfl⟩

/-- A metadata record matching iniW except for the commitment. -/
def metaBad : Metadata := ⟨List.replicate 32 2, 8, 4, 2, 2⟩

/-- Claim C1: with a nonzero aggregate on-disk label count, Initialize
loads the metadata and compares it field by field; the first mismatch
among Commitment, BitsPerLabel, LabelsPerUnit, NumFiles fails the call
with a ConfigMismatch error carrying exactly that field name, the
expected (in-memory) value, the found (persisted) value and the data
directory; a NumUnits difference fails if and only if NumFiles > 1; with
zero labels on disk the metadata is not consulted at all. -/
theorem C1_metadata_verification :
    (∀ (ini : Orchestrator) (w : World) (n : Nat) (m : Metadata) (e : ConfigMismatchError),
        w.lockHeld = false → w.diskNumLabels = Except.ok n → 0 < n →
        w.metaLoad = Except.ok m → verifyMetadata ini m = some e →
        (initRun ini w).1 = Except.error (InitError.configMismatch e)) ∧
    (∀ (ini : Orchestrator) (m : Metadata), ini.commitment ≠ m.commitment →
        verifyMetadata ini m =
          some ⟨"Commitment", hexBytes ini.commitment, hexBytes m.commitment,
            ini.opts.dataDir⟩) ∧
    (∀ (ini : Orchestrator) (m : Metadata), ini.commitment = m.commitment →
        ini.cfg.bitsPerLabel ≠ m.bitsPerLabel →
        verifyMetadata ini m =
          some ⟨"BitsPerLabel", toString ini.cfg.bitsPerLabel, toString m.bitsPerLabel,
            ini.opts.dataDir⟩) ∧
    (∀ (ini : Orchestrator) (m : Metadata), ini.commitment = m.commitment →
        ini.cfg.bitsPerLabel = m.bitsPerLabel → ini.cfg.labelsPerUnit ≠ m.labelsPerUnit →
        verifyMetadata ini m =
          some ⟨"LabelsPerUnit", toString ini.cfg.labelsPerUnit, toString m.labelsPerUnit,
            ini.opts.dataDir⟩) ∧
    (∀ (ini : Orchestrator) (m : Metadata), ini.commitment = m.commitment →
        ini.cfg.bitsPerLabel = m.bitsPerLabel → ini.cfg.labelsPerUnit = m.labelsPerUnit →
        ini.opts.numFiles ≠ m.numFiles →
        verifyMetadata ini m =
          some ⟨"NumFiles", toString ini.opts.numFiles, toString m.numFiles,
            ini.opts.dataDir⟩) ∧
    (∀ (ini : Orchestrator) (m : Metadata), ini.commitment = m.commitment →
        ini.cfg.bitsPerLabel = m.bitsPerLabel → ini.cfg.labelsPerUnit = m.labelsPerUnit →
        ini.opts.numFiles = m.numFiles → ini.opts.numUnits ≠ m.numUnits →
        verifyMetadata ini m =
          (if 1 < ini.opts.numFiles then
            some ⟨"NumUnits", toString ini.opts.numUnits, toString m.numUnits,
              ini.opts.dataDir⟩
          else none)) ∧
    (∀ (ini : Orchestrator) (w : World) (ml₁ ml₂ : Except String Metadata),
        w.diskNumLabels = Except.ok 0 →
        initRun ini { w with metaLoad := ml₁ } = initRun ini { w with metaLoad := ml₂ }) := by
  refine ⟨?_, ?_, ?_, ?_, ?_, ?_, ?_⟩
  · intro ini w n m e hl hd hn hm hv
    simp [initRun, hl, initBody, hd, hn, hm, hv]
  · intro ini m h
    simp [verifyMetadata, h]
  · intro ini m h1 h2
    simp [verifyMetadata, h1, h2]
  · intro ini m h1 h2 h3
    simp [verifyMetadata, h1, h2, h3]
  · intro ini m h1 h2 h3 h4
    simp [verifyMetadata, h1, h2, h3, h4]
  · intro ini m h1 h2 h3 h4 h5
    by_cases hf : 1 < ini.opts.numFiles
    · simp [verifyMetadata, h1, h2, h3, h4, h5, hf]
    · simp [verifyMetadata, h1, h2, h3, h4, h5, hf]
  · intro ini w ml₁ ml₂ hd
    simp [initRun, initBody, hd]

/-- Claim C1, witness: a commitment mismatch at concrete inputs is
reported with the Commitment field and hex-rendered values, and a world
with zero on-disk labels ignores the metadata load result. -/
theorem C1_metadata_verification_witness :
    (initRun iniW
        { worldW with diskNumLabels := Except.ok 3, metaLoad := Except.ok metaBad }).1 =
      Except.error (InitError.configMismatch
        ⟨"Commitment", hexBytes (List.replicate 32 1), hexBytes (List.replicate 32 2),
          "data"⟩) ∧
    initRun iniW { worldW with metaLoad := Except.ok metaBad } =
      initRun iniW { worldW with metaLoad := Except.error ("gone") } :=
  ⟨C1_metadata_verification.1 iniW _ 3 metaBad _ rfl rfl (by decide) rfl (by decide),
   C1_metadata_verification.2.2.2.2.2.2 iniW worldW (Except.ok metaBad)
     (Except.error ("gone")) rfl⟩

/-- Claim C2: a file whose persisted count already equals the per-file
target is skipped (success, no oracle dispatch, no write, no truncate);
one whose count exceeds the target is truncated to exactly the target
(success, no oracle dispatch, no write); in both cases the progress
counter is stored as the file end position fileOffset + fileNumLabels. -/
theorem C2_complete_and_shrunk (env : FileEnv) (i fnl bs : Nat) (c : List Nat)
    (h1 : 1 ≤ fnl) :
    (c.length = fnl →
        initFile env i fnl bs c =
          ⟨Except.ok (), ⟨c, []⟩, [Event.store (i * fnl + fnl)]⟩) ∧
    (fnl < c.length → env.truncateOk = true →
        initFile env i fnl bs c =
          ⟨Except.ok (), ⟨c.take fnl, []⟩,
            [Event.truncateEv fnl, Event.store (i * fnl + fnl)]⟩ ∧
        (c.take fnl).length = fnl) := by
  constructor
  · intro hc
    simp [initFile, WriterState.numLabelsWritten, hc, h1]
    intro h0
    omega
  · intro hc ht
    have hne : ¬ c.length = fnl := by omega
    have h0 : 0 < c.length := by omega
    constructor
    · simp [initFile, WriterState.numLabelsWritten, WriterState.truncate, h0, hne, hc, ht]
    · simp [List.length_take]
      omega

/-- Claim C2, witness: a complete file (4 of 4 labels, file index 1) and a
shrunk file (4 labels, new target 2) at concrete inputs. -/
theorem C2_complete_and_shrunk_witness :
    initFile envOk 1 4 7 [9, 9, 9, 9] =
      ⟨Except.ok (), ⟨[9, 9, 9, 9], []⟩, [Event.store 8]⟩ ∧
    initFile envOk 1 2 7 [9, 9, 9, 9] =
      ⟨Except.ok (), ⟨[9, 9], []⟩, [Event.truncateEv 2, Event.store 4]⟩ :=
  ⟨(C2_complete_and_shrunk envOk 1 4 7 [9, 9, 9, 9] (by decide)).1 rfl,
   ((C2_complete_and_shrunk envOk 1 2 7 [9, 9, 9, 9] (by decide)).2 (by decide) rfl).1⟩

/-- A cancellation signalled at the current batch boundary stops the gpu,
flushes the buffered writes (nothing is discarded) and returns the
context error. -/
theorem runBatches_cancel (env : FileEnv) (fo fnl fuel bs cp k : Nat) (w : WriterState)
    (hcp : cp < fnl) (hc : env.cancelAt k = true) (hg : env.gpuStopOk = true)
    (hf : env.flushOk = true) (hfuel : 1 ≤ fuel) :
    runBatches env fo fnl fuel bs cp k w =
      ⟨Except.error InitError.cancelled, ⟨w.flushed ++ w.buffer, []⟩,
        [Event.ctxCheck, Event.gpuStop, Event.flushEv]⟩ := by
  obtain ⟨f, rfl⟩ : ∃ f, fuel = f + 1 := ⟨fuel - 1, by omega⟩
  simp [runBatches, hcp, hc, hg, hf, WriterState.flush]

/-- Every cancellation check of the batch loop is followed by exactly one
oracle dispatch or one gpu stop: the token is checked exactly once before
each batch. -/
theorem runBatches_check_per_batch (env : FileEnv) (fo fnl : Nat) :
    ∀ (fuel bs cp k : Nat) (w : WriterState), 1 ≤ bs →
      ((runBatches env fo fnl fuel bs cp k w).trace.countP isCheck) =
        ((runBatches env fo fnl fuel bs cp k w).trace.countP isOracle) +
        ((runBatches env fo fnl fuel bs cp k w).trace.countP isGpu) := by
  intro fuel
  induction fuel with
  | zero =>
    intro bs cp k w hbs
    simp [runBatches]
  | succ f ih =>
    intro bs cp k w hbs
    by_cases hcp : cp < fnl
    · by_cases hc : env.cancelAt k
      · by_cases hg : env.gpuStopOk
        · by_cases hfl : env.flushOk
          · simp [runBatches, hcp, hc, hg, hfl, isCheck, isOracle, isGpu]
          · simp [runBatches, hcp, hc, hg, hfl, isCheck, isOracle, isGpu]
        · simp [runBatches, hcp, hc, hg, isCheck, isOracle, isGpu]
      · have hbs2 : ¬ ((if fnl - cp < bs then fnl - cp else bs) = 0) := by
          split <;> omega
        cases horc : env.oracle (fo + cp)
            (fo + cp + (if fnl - cp < bs then fnl - cp else bs) - 1) with
        | error e =>
          simp [runBatches, hcp, hc, hbs2, horc, isCheck, isOracle, isGpu]
        | ok res =>
          by_cases hw : env.writeOk k
          · have hbs1 : 1 ≤ (if fnl - cp < bs then fnl - cp else bs) := by omega
            have key := ih (if fnl - cp < bs then fnl - cp else bs)
              (cp + (if fnl - cp < bs then fnl - cp else bs)) (k + 1) (w.write res.output) hbs1
            simp only [runBatches, hcp, if_true, hc, Bool.false_eq_true, if_false, hbs2,
              horc, hw, List.countP_cons, isCheck, isOracle, isGpu] at key ⊢
            simp at key ⊢
            omega
          · simp [runBatches, hcp, hc, hbs2, horc, hw, isCheck, isOracle, isGpu]
    · by_cases hfl : env.flushOk <;>
        simp [runBatches, hcp, hfl, isCheck, isOracle, isGpu]

/-- The batch loop only ever appends: the labels persisted when the loop
starts are a prefix of the labels persisted when it returns, on every exit
path. -/
theorem runBatches_extends (env : FileEnv) (fo fnl : Nat) :
    ∀ (fuel bs cp k : Nat) (w : WriterState),
      ∃ t, (runBatches env fo fnl fuel bs cp k w).writer.flushed = w.flushed ++ t := by
  intro fuel
  induction fuel with
  | zero =>
    intro bs cp k w
    exact ⟨[], by simp [runBatches]⟩
  | succ f ih =>
    intro bs cp k w
    by_cases hcp : cp < fnl
    · by_cases hc : env.cancelAt k
      · by_cases hg : env.gpuStopOk
        · by_cases hfl : env.flushOk
          · exact ⟨w.buffer, by simp [runBatches, hcp, hc, hg, hfl, WriterState.flush]⟩
          · exact ⟨[], by simp [runBatches, hcp, hc, hg, hfl]⟩
        · exact ⟨[], by simp [runBatches, hcp, hc, hg]⟩
      · by_cases hbs2 : (if fnl - cp < bs then fnl - cp else bs) = 0
        · exact ⟨[], by simp [runBatches, hcp, hc, hbs2]⟩
        · cases horc : env.oracle (fo + cp)
              (fo + cp + (if fnl - cp < bs then fnl - cp else bs) - 1) with
          | error e => exact ⟨[], by simp [runBatches, hcp, hc, hbs2, horc]⟩
          | ok res =>
            by_cases hw : env.writeOk k
            · obtain ⟨t, ht⟩ := ih (if fnl - cp < bs then fnl - cp else bs)
                (cp + (if fnl - cp < bs then fnl - cp else bs)) (k + 1) (w.write res.output)
              refine ⟨t, ?_⟩
              simp [runBatches, hcp, hc, hbs2, horc, hw]
              rw [ht]
              rfl
            · exact ⟨[], by simp [runBatches, hcp, hc, hbs2, horc, hw]⟩
    · by_cases hfl : env.flushOk
      · exact ⟨w.buffer, by simp [runBatches, hcp, hfl, WriterState.flush]⟩
      · exact ⟨[], by simp [runBatches, hcp, hfl]⟩

/-- Every oracle dispatch of the batch loop is at or after the position
the loop was entered at: positions below the resume point are never
recomputed. -/
theorem runBatches_oracle_lb (env : FileEnv) (fo fnl : Nat) :
    ∀ (fuel bs cp k : Nat) (w : WriterState) (s : Nat),
      s ∈ oracleStarts (runBatches env fo fnl fuel bs cp k w).trace → fo + cp ≤ s := by
  intro fuel
  induction fuel with
  | zero =>
    intro bs cp k w s hs
    simp [runBatches, oracleStarts] at hs
  | succ f ih =>
    intro bs cp k w s hs
    by_cases hcp : cp < fnl
    · by_cases hc : env.cancelAt k
      · by_cases hg : env.gpuStopOk
        · by_cases hfl : env.flushOk <;>
            simp [runBatches, hcp, hc, hg, hfl, oracleStarts, oracleStart] at hs
        · simp [runBatches, hcp, hc, hg, oracleStarts, oracleStart] at hs
      · by_cases hbs2 : (if fnl - cp < bs then fnl - cp else bs) = 0
        · simp [runBatches, hcp, hc, hbs2, oracleStarts, oracleStart] at hs
        · cases horc : env.oracle (fo + cp)
              (fo + cp + (if fnl - cp < bs then fnl - cp else bs) - 1) with
          | error e =>
            simp [runBatches, hcp, hc, hbs2, horc, oracleStarts, oracleStart] at hs
            omega
          | ok res =>
            by_cases hw : env.writeOk k
            · simp [runBatches, hcp, hc, hbs2, horc, hw, oracleStarts, oracleStart] at hs
              rcases hs with hs | hs
              · omega
              · have := ih (if fnl - cp < bs then fnl - cp else bs)
                  (cp + (if fnl - cp < bs then fnl - cp else bs)) (k + 1)
                  (w.write res.output) s (by simpa [oracleStarts] using hs)
                omega
            · simp [runBatches, hcp, hc, hbs2, horc, hw, oracleStarts, oracleStart] at hs
              omega
    · by_cases hfl : env.flushOk <;>
        simp [runBatches, hcp, hfl, oracleStarts, oracleStart] at hs

/-- When the loop is entered below the target and not cancelled at the
first check, the first oracle dispatch starts exactly at the entry
position. -/
theorem runBatches_first_oracle (env : FileEnv) (fo fnl fuel bs cp k : Nat) (w : WriterState)
    (hcp : cp < fnl) (hc : env.cancelAt k = false) (hbs : 1 ≤ bs) (hfuel : 1 ≤ fuel) :
    (oracleStarts (runBatches env fo fnl fuel bs cp k w).trace).head? = some (fo + cp) := by
  obtain ⟨f, rfl⟩ : ∃ f, fuel = f + 1 := ⟨fuel - 1, by omega⟩
  have hbs2 : ¬ ((if fnl - cp < bs then fnl - cp else bs) = 0) := by split <;> omega
  cases horc : env.oracle (fo + cp)
      (fo + cp + (if fnl - cp < bs then fnl - cp else bs) - 1) with
  | error e => simp [runBatches, hcp, hc, hbs2, horc, oracleStarts, oracleStart]
  | ok res =>
    by_cases hw : env.writeOk k <;>
      simp [runBatches, hcp, hc, hbs2, horc, hw, oracleStarts, oracleStart]

/-- A concrete environment whose cancellation token is always
signalled. -/
def envCancel : FileEnv :=
  ⟨fun _ => true, fun _ _ => Except.error ("unused"), true, true, true, fun _ => true⟩

/-- Claim C5: cancellation is checked exactly once before each batch
(each check is followed by exactly one oracle dispatch or one gpu stop);
when the token is signalled at a check the loop stops the oracle, flushes
all buffered writes and returns the cancellation error; already-written
labels are never discarded (the persisted prefix only grows, on every
exit path); a later resume continues exactly from the persisted count:
its oracle dispatches never go below the resume position and the first
one starts exactly there. -/
theorem C5_cancellation_flush :
    (∀ (env : FileEnv) (fo fnl fuel bs cp k : Nat) (w : WriterState),
        cp < fnl → env.cancelAt k = true → env.gpuStopOk = true → env.flushOk = true →
        1 ≤ fuel →
        runBatches env fo fnl fuel bs cp k w =
          ⟨Except.error InitError.cancelled, ⟨w.flushed ++ w.buffer, []⟩,
            [Event.ctxCheck, Event.gpuStop, Event.flushEv]⟩) ∧
    (∀ (env : FileEnv) (fo fnl fuel bs cp k : Nat) (w : WriterState), 1 ≤ bs →
        ((runBatches env fo fnl fuel bs cp k w).trace.countP isCheck) =
          ((runBatches env fo fnl fuel bs cp k w).trace.countP isOracle) +
          ((runBatches env fo fnl fuel bs cp k w).trace.countP isGpu)) ∧
    (∀ (env : FileEnv) (fo fnl fuel bs cp k : Nat) (w : WriterState),
        ∃ t, (runBatches env fo fnl fuel bs cp k w).writer.flushed = w.flushed ++ t) ∧
    (∀ (env : FileEnv) (i fnl bs : Nat) (c : List Nat) (s : Nat),
        s ∈ oracleStarts (initFile env i fnl bs c).trace → i * fnl + c.length ≤ s) ∧
    (∀ (env : FileEnv) (i fnl bs : Nat) (c : List Nat),
        c.length < fnl → env.cancelAt 0 = false → 1 ≤ bs →
        (oracleStarts (initFile env i fnl bs c).trace).head? =
          some (i * fnl + c.length)) := by
  refine ⟨?_, ?_, ?_, ?_, ?_⟩
  · intro env fo fnl fuel bs cp k w hcp hc hg hf hfuel
    exact runBatches_cancel env fo fnl fuel bs cp k w hcp hc hg hf hfuel
  · intro env fo fnl fuel bs cp k w hbs
    exact runBatches_check_per_batch env fo fnl fuel bs cp k w hbs
  · intro env fo fnl fuel bs cp k w
    exact runBatches_extends env fo fnl fuel bs cp k w
  · intro env i fnl bs c s hs
    by_cases h0 : 0 < c.length
    · by_cases he : c.length = fnl
      · have hfnl : 0 < fnl := by omega
        simp [initFile, WriterState.numLabelsWritten, h0, he, hfnl,
          oracleStarts, oracleStart] at hs
      · by_cases hgt : fnl < c.length
        · by_cases ht : env.truncateOk <;>
            simp [initFile, WriterState.numLabelsWritten, h0, he, hgt, ht,
              oracleStarts, oracleStart] at hs
        · exact runBatches_oracle_lb env (i * fnl) fnl (fnl + 1) bs c.length 0 ⟨c, []⟩ s
            (by simpa [initFile, WriterState.numLabelsWritten, h0, he, hgt] using hs)
    · exact runBatches_oracle_lb env (i * fnl) fnl (fnl + 1) bs c.length 0 ⟨c, []⟩ s
        (by simpa [initFile, WriterState.numLabelsWritten, h0] using hs)
  · intro env i fnl bs c hlt hc hbs
    have hfo := runBatches_first_oracle env (i * fnl) fnl (fnl + 1) bs c.length 0 ⟨c, []⟩
      hlt hc hbs (by omega)
    by_cases h0 : 0 < c.length
    · have he : ¬ c.length = fnl := by omega
      have hgt : ¬ fnl < c.length := by omega
      simpa [initFile, WriterState.numLabelsWritten, h0, he, hgt] using hfo
    · simpa [initFile, WriterState.numLabelsWritten, h0] using hfo

/-- Claim C5, witness: a cancellation with a nonempty buffer flushes and
returns the context error, and a resume over a half-written file (4 of 8
labels) dispatches its first oracle call at position 4. -/
theorem C5_cancellation_flush_witness :
    runBatches envCancel 0 8 9 4 0 0 ⟨[1, 2], [3]⟩ =
      ⟨Except.error InitError.cancelled, ⟨[1, 2, 3], []⟩,
        [Event.ctxCheck, Event.gpuStop, Event.flushEv]⟩ ∧
    (oracleStarts (initFile envOk 0 8 4 [9, 9, 9, 9]).trace).head? = some 4 :=
  ⟨C5_cancellation_flush.1 envCancel 0 8 9 4 0 0 ⟨[1, 2], [3]⟩ (by decide) rfl rfl rfl
      (by decide),
   C5_cancellation_flush.2.2.2.2 envOk 0 8 4 [9, 9, 9, 9] (by decide) rfl (by decide)⟩

theorem getLast?_cons_of_ne_nil {α : Type} (a : α) (l : List α) (h : l ≠ []) :
    (a :: l).getLast? = l.getLast? := by
  cases l with
  | nil => exact absurd rfl h
  | cons b t => exact List.getLast?_cons_cons

/-- Flush discipline of the batch loop: an oracle or writer error aborts
with that error, the failing oracle dispatch is the last event and no
flush happens; normal completion and cancellation both end with a
flush. -/
theorem runBatches_flush_discipline (env : FileEnv) (fo fnl : Nat) :
    ∀ (fuel bs cp k : Nat) (w : WriterState),
      (∀ e, (runBatches env fo fnl fuel bs cp k w).result =
            Except.error (InitError.oracleError e) →
          (runBatches env fo fnl fuel bs cp k w).trace.countP isFlush = 0 ∧
          ∃ s t, (runBatches env fo fnl fuel bs cp k w).trace.getLast? =
            some (Event.oracleCall s t)) ∧
      ((runBatches env fo fnl fuel bs cp k w).result = Except.error InitError.writeError →
          (runBatches env fo fnl fuel bs cp k w).trace.countP isFlush = 0 ∧
          ∃ s t, (runBatches env fo fnl fuel bs cp k w).trace.getLast? =
            some (Event.oracleCall s t)) ∧
      ((runBatches env fo fnl fuel bs cp k w).result = Except.ok () →
          (runBatches env fo fnl fuel bs cp k w).trace.getLast? = some Event.flushEv) ∧
      ((runBatches env fo fnl fuel bs cp k w).result = Except.error InitError.cancelled →
          (runBatches env fo fnl fuel bs cp k w).trace.getLast? = some Event.flushEv) := by
  intro fuel
  induction fuel with
  | zero =>
    intro bs cp k w
    refine ⟨?_, ?_, ?_, ?_⟩ <;> simp [runBatches]
  | succ f ih =>
    intro bs cp k w
    by_cases hcp : cp < fnl
    · by_cases hc : env.cancelAt k
      · by_cases hg : env.gpuStopOk
        · by_cases hfl : env.flushOk
          · refine ⟨?_, ?_, ?_, ?_⟩ <;> simp [runBatches, hcp, hc, hg, hfl, List.getLast?]
          · refine ⟨?_, ?_, ?_, ?_⟩ <;> simp [runBatches, hcp, hc, hg, hfl, List.getLast?]
        · refine ⟨?_, ?_, ?_, ?_⟩ <;> simp [runBatches, hcp, hc, hg, List.getLast?]
      · by_cases hbs2 : (if fnl - cp < bs then fnl - cp else bs) = 0
        · refine ⟨?_, ?_, ?_, ?_⟩ <;> simp [runBatches, hcp, hc, hbs2, List.getLast?]
        · cases horc : env.oracle (fo + cp)
              (fo + cp + (if fnl - cp < bs then fnl - cp else bs) - 1) with
          | error e0 =>
            refine ⟨?_, ?_, ?_, ?_⟩ <;>
              simp [runBatches, hcp, hc, hbs2, horc, isFlush, List.getLast?]
          | ok res =>
            by_cases hw : env.writeOk k
            · have key := ih (if fnl - cp < bs then fnl - cp else bs)
                (cp + (if fnl - cp < bs then fnl - cp else bs)) (k + 1) (w.write res.output)
              set r := runBatches env fo fnl f (if fnl - cp < bs then fnl - cp else bs)
                (cp + (if fnl - cp < bs then fnl - cp else bs)) (k + 1) (w.write res.output)
                with hr
              have hres : (runBatches env fo fnl (f + 1) bs cp k w).result = r.result := by
                simp [runBatches, hcp, hc, hbs2, horc, hw, hr]
              have htr : (runBatches env fo fnl (f + 1) bs cp k w).trace =
                  Event.ctxCheck :: Event.oracleCall (fo + cp)
                      (fo + cp + (if fnl - cp < bs then fnl - cp else bs) - 1) ::
                    Event.writeEv res.output.length ::
                    Event.store (fo + cp + (if fnl - cp < bs then fnl - cp else bs)) ::
                    r.trace := by
                simp [runBatches, hcp, hc, hbs2, horc, hw, hr]
              have hlast : ∀ x, r.trace.getLast? = some x →
                  (runBatches env fo fnl (f + 1) bs cp k w).trace.getLast? = some x := by
                intro x hx
                have hne : r.trace ≠ [] := by
                  intro hnil
                  rw [hnil] at hx
                  simp [List.getLast?] at hx
                rw [htr]
                rw [getLast?_cons_of_ne_nil _ _ (by simp)]
                rw [getLast?_cons_of_ne_nil _ _ (by simp)]
                rw [getLast?_cons_of_ne_nil _ _ (by simp)]
                rw [getLast?_cons_of_ne_nil _ _ hne]
                exact hx
              have hcount : (runBatches env fo fnl (f + 1) bs cp k w).trace.countP isFlush =
                  r.trace.countP isFlush := by
                rw [htr]
                simp [List.countP_cons, isFlush]
              refine ⟨?_, ?_, ?_, ?_⟩
              · intro e he
                rw [hres] at he
                obtain ⟨h1, s, t, h2⟩ := key.1 e he
                exact ⟨by rw [hcount]; exact h1, s, t, hlast _ h2⟩
              · intro he
                rw [hres] at he
                obtain ⟨h1, s, t, h2⟩ := key.2.1 he
                exact ⟨by rw [hcount]; exact h1, s, t, hlast _ h2⟩
              · intro he
                rw [hres] at he
                exact hlast _ (key.2.2.1 he)
              · intro he
                rw [hres] at he
                exact hlast _ (key.2.2.2 he)
            · refine ⟨?_, ?_, ?_, ?_⟩ <;>
                simp [runBatches, hcp, hc, hbs2, horc, hw, isFlush, List.getLast?]
    · by_cases hfl : env.flushOk
      · refine ⟨?_, ?_, ?_, ?_⟩ <;> simp [runBatches, hcp, hfl, List.getLast?]
      · refine ⟨?_, ?_, ?_, ?_⟩ <;> simp [runBatches, hcp, hfl, List.getLast?]

/-- A concrete environment whose oracle always fails. -/
def envBoom : FileEnv :=
  ⟨fun _ => false, fun _ _ => Except.error ("boom"), true, true, true, fun _ => true⟩

/-- Claim C6, counterexample.  An oracle failure on the first batch aborts
the file with that error, but contrary to the claim no Flush of the writer
is invoked on this exit path: the trace of the failing run contains no
flush event (Flush appears only on the cancellation exit and after normal
loop completion; error exits run only the deferred Close). -/
theorem C6_error_no_flush_cx :
    (initFile envBoom 0 4 4 []).result = Except.error (InitError.oracleError ("boom")) ∧
    (initFile envBoom 0 4 4 []).trace.countP isFlush = 0 := by
  constructor
  · rfl
  · rfl

/-- Claim C6 (amended): every error returned by the compute oracle or by
the label writer during the per-file loop aborts the run immediately with
that error, the failing oracle dispatch being the last event; on these
error exits the writer Flush is not invoked (no flush event at all), while
the cancellation exit and normal loop completion do end with a flush. -/
theorem C6_error_abort_flush :
    (∀ (env : FileEnv) (i fnl bs : Nat) (c : List Nat) (e : String),
        (initFile env i fnl bs c).result = Except.error (InitError.oracleError e) →
        (initFile env i fnl bs c).trace.countP isFlush = 0 ∧
        ∃ s t, (initFile env i fnl bs c).trace.getLast? = some (Event.oracleCall s t)) ∧
    (∀ (env : FileEnv) (i fnl bs : Nat) (c : List Nat),
        (initFile env i fnl bs c).result = Except.error InitError.writeError →
        (initFile env i fnl bs c).trace.countP isFlush = 0 ∧
        ∃ s t, (initFile env i fnl bs c).trace.getLast? = some (Event.oracleCall s t)) ∧
    (∀ (env : FileEnv) (fo fnl fuel bs cp k : Nat) (w : WriterState),
        (runBatches env fo fnl fuel bs cp k w).result = Except.ok () →
        (runBatches env fo fnl fuel bs cp k w).trace.getLast? = some Event.flushEv) ∧
    (∀ (env : FileEnv) (fo fnl fuel bs cp k : Nat) (w : WriterState),
        (runBatches env fo fnl fuel bs cp k w).result = Except.error InitError.cancelled →
        (runBatches env fo fnl fuel bs cp k w).trace.getLast? = some Event.flushEv) := by
  have hfile : ∀ (env : FileEnv) (i fnl bs : Nat) (c : List Nat) (err : InitError),
      err = InitError.writeError ∨ (∃ e, err = InitError.oracleError e) →
      (initFile env i fnl bs c).result = Except.error err →
      (initFile env i fnl bs c).trace.countP isFlush = 0 ∧
      ∃ s t, (initFile env i fnl bs c).trace.getLast? = some (Event.oracleCall s t) := by
    intro env i fnl bs c err herr hres
    by_cases h0 : 0 < c.length
    · by_cases he : c.length = fnl
      · by_cases hfnl : 0 < fnl
        · simp [initFile, WriterState.numLabelsWritten, h0, he, hfnl] at hres
        · omega
      · by_cases hgt : fnl < c.length
        · by_cases ht : env.truncateOk
          · simp [initFile, WriterState.numLabelsWritten, h0, he, hgt, ht] at hres
          · simp [initFile, WriterState.numLabelsWritten, h0, he, hgt, ht] at hres
            rcases herr with h | ⟨e, h⟩ <;> simp [h] at hres
        · have hloop : initFile env i fnl bs c =
              runBatches env (i * fnl) fnl (fnl + 1) bs c.length 0 ⟨c, []⟩ := by
            simp [initFile, WriterState.numLabelsWritten, h0, he, hgt]
          rw [hloop] at hres ⊢
          rcases herr with h | ⟨e, h⟩
          · subst h
            exact (runBatches_flush_discipline env (i * fnl) fnl (fnl + 1) bs c.length 0
              ⟨c, []⟩).2.1 hres
          · subst h
            exact (runBatches_flush_discipline env (i * fnl) fnl (fnl + 1) bs c.length 0
              ⟨c, []⟩).1 e hres
    · have hloop : initFile env i fnl bs c =
          runBatches env (i * fnl) fnl (fnl + 1) bs c.length 0 ⟨c, []⟩ := by
        simp [initFile, WriterState.numLabelsWritten, h0]
      rw [hloop] at hres ⊢
      rcases herr with h | ⟨e, h⟩
      · subst h
        exact (runBatches_flush_discipline env (i * fnl) fnl (fnl + 1) bs c.length 0
          ⟨c, []⟩).2.1 hres
      · subst h
        exact (runBatches_flush_discipline env (i * fnl) fnl (fnl + 1) bs c.length 0
          ⟨c, []⟩).1 e hres
  refine ⟨?_, ?_, ?_, ?_⟩
  · intro env i fnl bs c e hres
    exact hfile env i fnl bs c (InitError.oracleError e) (Or.inr ⟨e, rfl⟩) hres
  · intro env i fnl bs c hres
    exact hfile env i fnl bs c InitError.writeError (Or.inl rfl) hres
  · intro env fo fnl fuel bs cp k w hres
    exact (runBatches_flush_discipline env fo fnl fuel bs cp k w).2.2.1 hres
  · intro env fo fnl fuel bs cp k w hres
    exact (runBatches_flush_discipline env fo fnl fuel bs cp k w).2.2.2 hres

/-- Claim C6, witness: the failing-oracle run has no flush and ends at
the failing dispatch; a successful loop over one batch ends with a
flush. -/
theorem C6_error_abort_flush_witness :
    ((initFile envBoom 0 4 4 []).trace.countP isFlush = 0 ∧
      ∃ s t, (initFile envBoom 0 4 4 []).trace.getLast? = some (Event.oracleCall s t)) ∧
    (runBatches envOk 0 4 5 4 0 0 ⟨[], []⟩).trace.getLast? = some Event.flushEv :=
  ⟨C6_error_abort_flush.1 envBoom 0 4 4 [] ("boom") rfl,
   C6_error_abort_flush.2.2.1 envOk 0 4 5 4 0 0 ⟨[], []⟩ rfl⟩

theorem storesOf_append (a b : List Event) :
    storesOf (a ++ b) = storesOf a ++ storesOf b :=
  List.filterMap_append a b storeVal

/-- Progress values stored by the batch loop are strictly between the
entry position and the file end, and they are stored in increasing
order. -/
theorem runBatches_stores (env : FileEnv) (fo fnl : Nat) :
    ∀ (fuel bs cp k : Nat) (w : WriterState),
      List.Chain' (· ≤ ·) (storesOf (runBatches env fo fnl fuel bs cp k w).trace) ∧
      ∀ v ∈ storesOf (runBatches env fo fnl fuel bs cp k w).trace,
        fo + cp < v ∧ v ≤ fo + fnl := by
  intro fuel
  induction fuel with
  | zero =>
    intro bs cp k w
    constructor <;> simp [runBatches, storesOf]
  | succ f ih =>
    intro bs cp k w
    by_cases hcp : cp < fnl
    · by_cases hc : env.cancelAt k
      · by_cases hg : env.gpuStopOk
        · by_cases hfl : env.flushOk
          · constructor <;> simp [runBatches, hcp, hc, hg, hfl, storesOf, storeVal]
          · constructor <;> simp [runBatches, hcp, hc, hg, hfl, storesOf, storeVal]
        · constructor <;> simp [runBatches, hcp, hc, hg, storesOf, storeVal]
      · by_cases hbs2 : (if fnl - cp < bs then fnl - cp else bs) = 0
        · constructor <;> simp [runBatches, hcp, hc, hbs2, storesOf, storeVal]
        · cases horc : env.oracle (fo + cp)
              (fo + cp + (if fnl - cp < bs then fnl - cp else bs) - 1) with
          | error e =>
            constructor <;> simp [runBatches, hcp, hc, hbs2, horc, storesOf, storeVal]
          | ok res =>
            by_cases hw : env.writeOk k
            · have key := ih (if fnl - cp < bs then fnl - cp else bs)
                (cp + (if fnl - cp < bs then fnl - cp else bs)) (k + 1) (w.write res.output)
              have hsto : storesOf (runBatches env fo fnl (f + 1) bs cp k w).trace =
                  (fo + cp + (if fnl - cp < bs then fnl - cp else bs)) ::
                    storesOf (runBatches env fo fnl f (if fnl - cp < bs then fnl - cp else bs)
                      (cp + (if fnl - cp < bs then fnl - cp else bs)) (k + 1)
                      (w.write res.output)).trace := by
                simp [runBatches, hcp, hc, hbs2, horc, hw, storesOf, storeVal]
              have hend : cp + (if fnl - cp < bs then fnl - cp else bs) ≤ fnl := by
                split <;> omega
              rw [hsto]
              constructor
              · apply List.chain'_cons'.mpr
                refine ⟨?_, key.1⟩
                intro b hb
                have := key.2 b (List.mem_of_mem_head? hb)
                omega
              · intro v hv
                rcases List.mem_cons.mp hv with hv | hv
                · subst hv
                  omega
                · have := key.2 v hv
                  omega
            · constructor <;> simp [runBatches, hcp, hc, hbs2, horc, hw, storesOf, storeVal]
    · by_cases hfl : env.flushOk
      · constructor <;> simp [runBatches, hcp, hfl, storesOf, storeVal]
      · constructor <;> simp [runBatches, hcp, hfl, storesOf, storeVal]

/-- Progress values stored by one initFile call lie in the file interval
(fileOffset, fileOffset + fileNumLabels] and increase. -/
theorem initFile_stores (env : FileEnv) (i fnl bs : Nat) (c : List Nat) (h1 : 1 ≤ fnl) :
    List.Chain' (· ≤ ·) (storesOf (initFile env i fnl bs c).trace) ∧
    ∀ v ∈ storesOf (initFile env i fnl bs c).trace, i * fnl < v ∧ v ≤ i * fnl + fnl := by
  by_cases h0 : 0 < c.length
  · by_cases he : c.length = fnl
    · have hfnl : 0 < fnl := h1
      have htr : (initFile env i fnl bs c).trace = [Event.store (i * fnl + fnl)] := by
        simp [initFile, WriterState.numLabelsWritten, h0, he, hfnl]
      rw [htr]
      constructor
      · simp [storesOf, storeVal]
      · intro v hv
        simp [storesOf, storeVal] at hv
        omega
    · by_cases hgt : fnl < c.length
      · by_cases ht : env.truncateOk
        · have htr : (initFile env i fnl bs c).trace =
              [Event.truncateEv fnl, Event.store (i * fnl + fnl)] := by
            simp [initFile, WriterState.numLabelsWritten, h0, he, hgt, ht]
          rw [htr]
          constructor
          · simp [storesOf, storeVal]
          · intro v hv
            simp [storesOf, storeVal] at hv
            omega
        · have htr : (initFile env i fnl bs c).trace = [Event.truncateEv fnl] := by
            simp [initFile, WriterState.numLabelsWritten, h0, he, hgt, ht]
          rw [htr]
          constructor
          · simp [storesOf, storeVal]
          · intro v hv
            simp [storesOf, storeVal] at hv
      · have hloop : initFile env i fnl bs c =
            runBatches env (i * fnl) fnl (fnl + 1) bs c.length 0 ⟨c, []⟩ := by
          simp [initFile, WriterState.numLabelsWritten, h0, he, hgt]
        rw [hloop]
        have key := runBatches_stores env (i * fnl) fnl (fnl + 1) bs c.length 0 ⟨c, []⟩
        refine ⟨key.1, ?_⟩
        intro v hv
        have := key.2 v hv
        omega
  · have hloop : initFile env i fnl bs c =
        runBatches env (i * fnl) fnl (fnl + 1) bs c.length 0 ⟨c, []⟩ := by
      simp [initFile, WriterState.numLabelsWritten, h0]
    rw [hloop]
    have key := runBatches_stores env (i * fnl) fnl (fnl + 1) bs c.length 0 ⟨c, []⟩
    refine ⟨key.1, ?_⟩
    intro v hv
    have := key.2 v hv
    omega

/-- Progress values stored by the sequential per-file loop increase
across files as well: each file stores values above its own offset. -/
theorem initFiles_stores (batchSize : Nat) (fileContents : Nat → List Nat)
    (fileEnv : Nat → FileEnv) (fnl : Nat) (h1 : 1 ≤ fnl) :
    ∀ (cnt i : Nat),
      List.Chain' (· ≤ ·)
        (storesOf (initFiles batchSize fileContents fileEnv fnl i cnt).2) ∧
      ∀ v ∈ storesOf (initFiles batchSize fileContents fileEnv fnl i cnt).2,
        i * fnl < v := by
  intro cnt
  induction cnt with
  | zero =>
    intro i
    constructor <;> simp [initFiles, storesOf]
  | succ c ih =>
    intro i
    have hst := initFile_stores (fileEnv i) i fnl batchSize (fileContents i) h1
    cases hres : (initFile (fileEnv i) i fnl batchSize (fileContents i)).result with
    | error e =>
      have htr : (initFiles batchSize fileContents fileEnv fnl i (c + 1)).2 =
          (initFile (fileEnv i) i fnl batchSize (fileContents i)).trace := by
        simp [initFiles, hres]
      rw [htr]
      exact ⟨hst.1, fun v hv => (hst.2 v hv).1⟩
    | ok u =>
      have ihn := ih (i + 1)
      have htr : (initFiles batchSize fileContents fileEnv fnl i (c + 1)).2 =
          (initFile (fileEnv i) i fnl batchSize (fileContents i)).trace ++
            (initFiles batchSize fileContents fileEnv fnl (i + 1) c).2 := by
        simp [initFiles, hres]
      rw [htr, storesOf_append]
      have hmul : (i + 1) * fnl = i * fnl + fnl := by ring
      constructor
      · apply List.chain'_append.mpr
        refine ⟨hst.1, ihn.1, ?_⟩
        intro x hx y hy
        have h1x := (hst.2 x (List.mem_of_mem_getLast? hx)).2
        have h2y := ihn.2 y (List.mem_of_mem_head? hy)
        omega
      · intro v hv
        rcases List.mem_append.mp hv with hv | hv
        · exact (hst.2 v hv).1
        · have := ihn.2 v hv
          omega

/-- Claim C8, counterexample.  Resuming a file that already holds 4 of 8
labels writes only 4 labels in this session, yet the progress counter
(SessionNumLabelsWritten) ends at 8: the stored value is the absolute
position fileOffset + position, which includes labels persisted by
earlier runs, not a count of labels written during this process's
lifetime. -/
theorem C8_session_count_cx :
    (initFile envOk 0 8 4 [9, 9, 9, 9]).result = Except.ok () ∧
    storesOf (initFile envOk 0 8 4 [9, 9, 9, 9]).trace = [8] ∧
    writtenOf (initFile envOk 0 8 4 [9, 9, 9, 9]).trace = 4 :=
  ⟨rfl, rfl, rfl⟩

/-- Claim C8 (amended): the progress counter stores the absolute label
position fileOffset + position reached by the run (which on a resumed
directory includes labels persisted before this session); within a single
Initialize run the stored values never decrease, and the values stored
while processing file i lie in (i * fileNumLabels, (i+1) * fileNumLabels]. -/
theorem C8_progress_monotone :
    (∀ (ini : Orchestrator) (w : World),
        1 ≤ targetLabels ini / ini.opts.numFiles →
        List.Chain' (· ≤ ·) (storesOf (initRun ini w).2)) ∧
    (∀ (env : FileEnv) (i fnl bs : Nat) (c : List Nat), 1 ≤ fnl →
        ∀ v ∈ storesOf (initFile env i fnl bs c).trace,
          i * fnl < v ∧ v ≤ i * fnl + fnl) := by
  constructor
  · intro ini w h1
    by_cases hl : w.lockHeld
    · simp [initRun, hl, storesOf]
    · have hsp : storesOf (initRun ini w).2 = storesOf (initBody ini w).2 := by
        simp [initRun, hl, storesOf, List.filterMap_append, List.filterMap_cons, storeVal]
      rw [hsp]
      cases hd : w.diskNumLabels with
      | error e => simp [initBody, hd, storesOf]
      | ok n =>
        simp only [initBody, hd]
        split
        · simp [storesOf]
        · by_cases hs : w.saveOk
          · simp only [hs, if_true]
            exact (initFiles_stores w.batchSize w.fileContents w.fileEnv
              (targetLabels ini / ini.opts.numFiles) h1 ini.opts.numFiles 0).1
          · simp [hs, storesOf]
  · intro env i fnl bs c h1
    exact (initFile_stores env i fnl bs c h1).2

/-- Claim C8, witness: a monotone store sequence for a full concrete run
and the per-file bounds for the resumed-file run. -/
theorem C8_progress_monotone_witness :
    1 ≤ targetLabels iniW / iniW.opts.numFiles ∧
    List.Chain' (· ≤ ·) (storesOf (initRun iniW worldW).2) ∧
    ∀ v ∈ storesOf (initFile envOk 0 8 4 [9, 9, 9, 9]).trace, 0 * 8 < v ∧ v ≤ 0 * 8 + 8 :=
  ⟨by decide, C8_progress_monotone.1 iniW worldW (by decide),
   C8_progress_monotone.2 envOk 0 8 4 [9, 9, 9, 9] (by decide)⟩
